import Mathlib

/-!
Shallow embedding of the `tower-compress` middleware
(`src/tower-compress/src/lib.rs`): encoding negotiation from the
`Accept-Encoding` request header, the `Compress` service, the
`CompressFuture` transform phase, the `Encoder` sum type and the
three-variant `Error` model.

Bytes are modelled as `Nat` (values < 256 in practice; none of the
verified properties depend on the bound).  Header values on the request
side are byte lists, because `http::HeaderValue` admits opaque bytes
(obs-text, 0x80..0xFF) that are not visible ASCII; `HeaderValue::to_str`
succeeds only on visible-ASCII values.
-/

namespace TowerCompress

/-- Visible-ASCII test used by `http::HeaderValue::to_str`: a byte is
accepted iff it is in `32..=126` or is the horizontal tab `9`. -/
def isVisibleAscii (b : Nat) : Bool :=
  (32 ≤ b && b < 127) || b == 9

/-- `HeaderValue::to_str`: yields the value (as its byte sequence) iff every
byte is visible ASCII, otherwise fails. -/
def toStr (v : List Nat) : Option (List Nat) :=
  if v.all isVisibleAscii then some v else none

/-- `leadsWith pat l` holds iff `pat` is an initial segment of `l`. -/
def leadsWith : List Nat → List Nat → Bool
  | [], _ => true
  | _ :: _, [] => false
  | p :: ps, h :: hs => p == h && leadsWith ps hs

/-- `str::contains`: substring search, `containsSub hay pat` is true iff
`pat` occurs contiguously inside `hay`. -/
def containsSub : List Nat → List Nat → Bool
  | [], pat => pat.isEmpty
  | h :: t, pat => leadsWith pat (h :: t) || containsSub t pat

/-- The byte sequence of the literal `"gzip"`. -/
def gzipTok : List Nat := [103, 122, 105, 112]

/-- The byte sequence of the literal `"deflate"`. -/
def deflateTok : List Nat := [100, 101, 102, 108, 97, 116, 101]

/-- Name of the negotiation header, `header::ACCEPT_ENCODING`. -/
def ACCEPT_ENCODING : String := "accept-encoding"

/-- Name of the encoding-identifier header, `header::CONTENT_ENCODING`. -/
def CONTENT_ENCODING : String := "content-encoding"

/-- A request: a multimap of headers (name, value bytes) in order of
appearance, and a body. -/
structure Req (α : Type) where
  headers : List (String × List Nat)
  body : α

/-- `HeaderMap::get_all(name)`: all values of the header `name`, in order
of appearance. -/
def getAll (hs : List (String × List Nat)) (name : String) : List (List Nat) :=
  (hs.filter (fun p => p.1 == name)).map (fun p => p.2)

/-- The `Encoding` enumeration of the middleware. -/
inductive Encoding
  | deflate
  | gzip
  | uncompressed
deriving DecidableEq

/-- `Encoding::is_compressed`: false only for `Uncompressed`. -/
def Encoding.is_compressed : Encoding → Bool
  | .uncompressed => false
  | _ => true

/-- `Encoding::header_value`: the canonical header value for the encoding. -/
def Encoding.header_value : Encoding → String
  | .deflate => "deflate"
  | .gzip => "gzip"
  | .uncompressed => "identity"

/-- The per-value step of `Encoding::from_request`:
`value.to_str().ok().and_then(..)` — skip values that are not visible
ASCII, then check containment of `"gzip"` first, `"deflate"` second. -/
def classifyValue (v : List Nat) : Option Encoding :=
  (toStr v).bind (fun s =>
    if containsSub s gzipTok then some Encoding.gzip
    else if containsSub s deflateTok then some Encoding.deflate
    else none)

/-- `Encoding::from_request`: scan all `Accept-Encoding` values in order,
take the first classification, defaulting to `Uncompressed`. -/
def Encoding.from_request {α : Type} (req : Req α) : Encoding :=
  (((getAll req.headers ACCEPT_ENCODING).filterMap classifyValue).head?).getD
    Encoding.uncompressed

/-- Reference negotiation as the specification words it: iterate values in
order; a value containing `"gzip"` yields Gzip, else one containing
`"deflate"` yields Deflate, else continue; default Uncompressed.  (No
visible-ASCII validity filtering.) -/
def specNegotiate : List (List Nat) → Encoding
  | [] => Encoding.uncompressed
  | v :: rest =>
    if containsSub v gzipTok then Encoding.gzip
    else if containsSub v deflateTok then Encoding.deflate
    else specNegotiate rest

/-- Reference negotiation amended with the validity filter: a value whose
bytes are not a valid visible-ASCII string is skipped. -/
def specNegotiateValid : List (List Nat) → Encoding
  | [] => Encoding.uncompressed
  | v :: rest =>
    if v.all isVisibleAscii then
      if containsSub v gzipTok then Encoding.gzip
      else if containsSub v deflateTok then Encoding.deflate
      else specNegotiateValid rest
    else specNegotiateValid rest

/-- `deflate::CompressionOptions`, opaque configuration. -/
structure CompressionOptions where
  level : Nat
deriving DecidableEq

/-- An I/O error value (`std::io::Error`), opaque payload. -/
structure IoErr where
  code : Nat
deriving DecidableEq

/-- A `Vec<u8>` output buffer: `cap` records the capacity requested at
construction (`Vec::with_capacity`), `data` the bytes written so far. -/
structure Buf where
  cap : Nat
  data : List Nat
deriving DecidableEq

/-- Response headers: (name, value) pairs. -/
def getHeader (hs : List (String × String)) (name : String) : Option String :=
  (hs.find? (fun p => p.1 == name)).map (fun p => p.2)

/-- `HeaderMap::insert`: replaces any existing values of the header with
the single given value. -/
def insertHeader (hs : List (String × String)) (name v : String) :
    List (String × String) :=
  hs.filter (fun p => p.1 != name) ++ [(name, v)]

/-- A response: status, headers, body (`Response::into_parts` /
`Response::from_parts` are the obvious projections/constructor). -/
structure Resp (β : Type) where
  status : Nat
  headers : List (String × String)
  body : β
deriving DecidableEq

/-- `futures::Async`: a poll either yields a value or reports not-ready. -/
inductive Async (α : Type)
  | ready (a : α)
  | notReady
deriving DecidableEq

/-- The middleware's error type: `Inner` wraps the wrapped service's own
error, `Write`/`Finish` wrap I/O errors from the two encoder phases. -/
inductive Error (ε : Type)
  | inner (e : ε)
  | write (e : IoErr)
  | finish (e : IoErr)
deriving DecidableEq

/-- Modelled from the spec: the external `deflate` crate's stream encoders
(`GzEncoder`, `DeflateEncoder`) are out of scope of the repository and are
consumed as an opaque capability providing `write(bytes) -> Result<usize>`
and a finalization that emits the compressed bytes.  A `CodecEnv` gives
the behaviour of those external calls: each `write` either consumes the
whole buffer or fails with an I/O error, and each `finish` either emits
the compressed output for the accumulated input bytes or fails. -/
structure CodecEnv where
  gzipWrite : CompressionOptions → List Nat → Except IoErr Nat
  deflateWrite : CompressionOptions → List Nat → Except IoErr Nat
  gzipFinish : CompressionOptions → List Nat → Except IoErr (List Nat)
  deflateFinish : CompressionOptions → List Nat → Except IoErr (List Nat)

/-- The `Encoder` sum type, `W = Vec<u8>`: each compressed variant wraps
the external encoder's state (its output writer plus the input bytes
written so far); the passthrough variant wraps the writer directly. -/
inductive Encoder
  | deflate (opts : CompressionOptions) (w : Buf) (written : List Nat)
  | gzip (opts : CompressionOptions) (w : Buf) (written : List Nat)
  | uncompressed (w : Buf)
deriving DecidableEq

/-- `Write::write` for `Encoder`: dispatch on the variant.  The
`Vec<u8>` writer of the passthrough variant appends and never fails; the
compressed variants delegate to the external encoder (`CodecEnv`). -/
def Encoder.write (env : CodecEnv) : Encoder → List Nat →
    Except IoErr Encoder
  | .deflate o w written, buf =>
    match env.deflateWrite o buf with
    | .ok _ => .ok (.deflate o w (written ++ buf))
    | .error e => .error e
  | .gzip o w written, buf =>
    match env.gzipWrite o buf with
    | .ok _ => .ok (.gzip o w (written ++ buf))
    | .error e => .error e
  | .uncompressed w, buf => .ok (.uncompressed ⟨w.cap, w.data ++ buf⟩)

/-- `Encoder::finish`: the compressed variants finalize via the external
encoder, appending its output to the writer and returning it; the
passthrough variant flushes (a no-op on `Vec<u8>`) and returns the writer
verbatim. -/
def Encoder.finish (env : CodecEnv) : Encoder → Except IoErr Buf
  | .deflate o w written =>
    match env.deflateFinish o written with
    | .ok out => .ok ⟨w.cap, w.data ++ out⟩
    | .error e => .error e
  | .gzip o w written =>
    match env.gzipFinish o written with
    | .ok out => .ok ⟨w.cap, w.data ++ out⟩
    | .error e => .error e
  | .uncompressed w => .ok w

/-- The capacity requested for the encoder's output buffer. -/
def Encoder.bufCap : Encoder → Nat
  | .deflate _ w _ => w.cap
  | .gzip _ w _ => w.cap
  | .uncompressed w => w.cap

/-- The `CompressFuture` for one request: the outcome of polling the
wrapped service's pending computation, the negotiated encoding, and the
copied options. -/
structure CompressFuture (ε : Type) where
  innerPoll : Except ε (Async (Resp (List Nat)))
  encoding : Encoding
  options : CompressionOptions

/-- `CompressFuture::make_encoder`: a fresh writer of the given capacity,
wrapped in the encoder variant matching the negotiated encoding. -/
def CompressFuture.make_encoder {ε : Type} (fut : CompressFuture ε)
    (capacity : Nat) : Encoder :=
  match fut.encoding with
  | .gzip => .gzip fut.options ⟨capacity, []⟩ []
  | .deflate => .deflate fut.options ⟨capacity, []⟩ []
  | .uncompressed => .uncompressed ⟨capacity, []⟩

/-- `CompressFuture::poll`: propagate the wrapped computation's error as
`Error::Inner` or its not-ready state; once the response is available, set
the `Content-Encoding` header and pick capacity `len / 3` when the
encoding is compressed (capacity `len` otherwise), build the encoder,
write the whole body (`Error::Write` on failure), finish (`Error::Finish`
on failure) and yield the response rebuilt with the finished buffer. -/
def CompressFuture.poll {ε : Type} (env : CodecEnv) (fut : CompressFuture ε) :
    Except (Error ε) (Async (Resp Buf)) :=
  match fut.innerPoll with
  | .error e => .error (.inner e)
  | .ok .notReady => .ok .notReady
  | .ok (.ready resp) =>
    let headers' :=
      if fut.encoding.is_compressed then
        insertHeader resp.headers CONTENT_ENCODING fut.encoding.header_value
      else resp.headers
    let capacity :=
      if fut.encoding.is_compressed then resp.body.length / 3
      else resp.body.length
    match Encoder.write env (fut.make_encoder capacity) resp.body with
    | .error e => .error (.write e)
    | .ok enc1 =>
      match Encoder.finish env enc1 with
      | .error e => .error (.finish e)
      | .ok outBuf =>
        .ok (.ready { status := resp.status, headers := headers',
                      body := outBuf })

/-- Observable actions of one poll, used to state ordering properties. -/
inductive Ev
  | setHeader (v : String)
  | writeEv
  | finishEv
deriving DecidableEq

/-- `CompressFuture::poll` instrumented with its action trace, in the
operational order of the source: the header mutation happens inside the
capacity computation (before the encoder is built), then the write is
attempted, then the finish.  The second component is the poll result. -/
def CompressFuture.pollEvents {ε : Type} (env : CodecEnv)
    (fut : CompressFuture ε) :
    List Ev × Except (Error ε) (Async (Resp Buf)) :=
  match fut.innerPoll with
  | .error e => ([], .error (.inner e))
  | .ok .notReady => ([], .ok .notReady)
  | .ok (.ready resp) =>
    let hdrEvents :=
      if fut.encoding.is_compressed then
        [Ev.setHeader fut.encoding.header_value]
      else []
    let headers' :=
      if fut.encoding.is_compressed then
        insertHeader resp.headers CONTENT_ENCODING fut.encoding.header_value
      else resp.headers
    let capacity :=
      if fut.encoding.is_compressed then resp.body.length / 3
      else resp.body.length
    match Encoder.write env (fut.make_encoder capacity) resp.body with
    | .error e => (hdrEvents ++ [Ev.writeEv], .error (.write e))
    | .ok enc1 =>
      match Encoder.finish env enc1 with
      | .error e =>
        (hdrEvents ++ [Ev.writeEv, Ev.finishEv], .error (.finish e))
      | .ok outBuf =>
        (hdrEvents ++ [Ev.writeEv, Ev.finishEv],
          .ok (.ready { status := resp.status, headers := headers',
                        body := outBuf }))

/-- The `Compress` middleware: the wrapped service (modelled by the
function taking a request to its pending computation's poll outcome) and
the compression options. -/
structure Compress (α ε : Type) where
  inner : Req α → Except ε (Async (Resp (List Nat)))
  options : CompressionOptions

/-- `Compress::call`: negotiate the encoding from the request, delegate
the unmodified request to the wrapped service, and bundle the pending
computation with the encoding and a copy of the options. -/
def Compress.call {α ε : Type} (svc : Compress α ε) (req : Req α) :
    CompressFuture ε :=
  { innerPoll := svc.inner req
    encoding := Encoding.from_request req
    options := svc.options }

/-- A `CodecEnv` whose external calls never fail: writes consume the whole
buffer and each finish applies a pure compression function to the
accumulated input. -/
def pureEnv (cg cd : CompressionOptions → List Nat → List Nat) : CodecEnv :=
  { gzipWrite := fun _ buf => .ok buf.length
    deflateWrite := fun _ buf => .ok buf.length
    gzipFinish := fun o written => .ok (cg o written)
    deflateFinish := fun o written => .ok (cd o written) }

/-- The identity codec, used to instantiate round-trip statements. -/
def idCodec : CompressionOptions → List Nat → List Nat := fun _ b => b

/-- An environment whose external writes fail with error code 7. -/
def envFailW : CodecEnv :=
  { gzipWrite := fun _ _ => .error ⟨7⟩
    deflateWrite := fun _ _ => .error ⟨7⟩
    gzipFinish := fun _ _ => .error ⟨7⟩
    deflateFinish := fun _ _ => .error ⟨7⟩ }

/-- An environment whose external writes succeed but whose finishes fail
with error code 9. -/
def envFailF : CodecEnv :=
  { gzipWrite := fun _ buf => .ok buf.length
    deflateWrite := fun _ buf => .ok buf.length
    gzipFinish := fun _ _ => .error ⟨9⟩
    deflateFinish := fun _ _ => .error ⟨9⟩ }

/-- A request whose only `Accept-Encoding` value is the obs-text byte
`0x80` followed by the bytes of `"gzip"`: a valid `HeaderValue` that is
not visible ASCII. -/
def reqObsGzip : Req Unit :=
  { headers := [(ACCEPT_ENCODING, 128 :: gzipTok)], body := () }

/-- A concrete gzip-encoded future whose wrapped response is ready. -/
def futG : CompressFuture Nat :=
  { innerPoll := .ok (.ready { status := 200, headers := [], body := [1, 2, 3, 4, 5] })
    encoding := Encoding.gzip
    options := ⟨0⟩ }

/-- A concrete uncompressed future whose wrapped response is ready. -/
def futU : CompressFuture Nat :=
  { innerPoll := .ok (.ready { status := 200, headers := [("x-a", "b")], body := [9, 8, 7] })
    encoding := Encoding.uncompressed
    options := ⟨0⟩ }

/-- A concrete future whose wrapped computation failed with error 42. -/
def futE : CompressFuture Nat :=
  { innerPoll := .error 42
    encoding := Encoding.gzip
    options := ⟨0⟩ }

/-- A request both of whose `Accept-Encoding` values contain a byte that
is not visible ASCII. -/
def reqInvalidOnly : Req Unit :=
  { headers := [(ACCEPT_ENCODING, [200]), (ACCEPT_ENCODING, [255, 1])]
    body := () }

/-- Looking up the freshly inserted header yields its value. -/
theorem getHeader_insertHeader (hs : List (String × String)) (n v : String) :
    getHeader (insertHeader hs n v) n = some v := by
  have hnone : (hs.filter (fun p => p.1 != n)).find? (fun p => p.1 == n)
      = none := by
    rw [List.find?_eq_none]
    intro p hp
    rcases List.mem_filter.mp hp with ⟨-, h2⟩
    simp only [bne_iff_ne, ne_eq] at h2
    simp [h2]
  simp [getHeader, insertHeader, List.find?_append, hnone]

/-- The negotiation scan of `Encoding::from_request` agrees with the
amended reference negotiation on every value list. -/
theorem negotiate_eq_specValid (vs : List (List Nat)) :
    ((vs.filterMap classifyValue).head?).getD Encoding.uncompressed =
      specNegotiateValid vs := by
  induction vs with
  | nil => rfl
  | cons v rest ih =>
    by_cases hv : v.all isVisibleAscii = true
    · by_cases hg : containsSub v gzipTok = true
      · simp [classifyValue, toStr, hv, hg, specNegotiateValid,
          List.filterMap_cons]
      · by_cases hd : containsSub v deflateTok = true
        · simp [classifyValue, toStr, hv, hg, hd, specNegotiateValid,
            List.filterMap_cons]
        · simpa [classifyValue, toStr, hv, hg, hd, specNegotiateValid,
            List.filterMap_cons] using ih
    · simpa [classifyValue, toStr, hv, specNegotiateValid,
        List.filterMap_cons] using ih

/-- Claim C1, counterexample: on a request whose only `Accept-Encoding`
value is the obs-text byte `0x80` followed by `"gzip"` — a valid header
value — the reference definition of the claim yields Gzip (the value
contains the substring `"gzip"`), but `Encoding::from_request` yields
Uncompressed, because `to_str` rejects the non-visible-ASCII value. -/
theorem claim1_counterexample :
    Encoding.from_request reqObsGzip = Encoding.uncompressed ∧
    specNegotiate (getAll reqObsGzip.headers ACCEPT_ENCODING) =
      Encoding.gzip ∧
    Encoding.from_request reqObsGzip ≠
      specNegotiate (getAll reqObsGzip.headers ACCEPT_ENCODING) := by
  refine ⟨by decide, by decide, by decide⟩

/-- Claim C1, amended: for every request, `Encoding::from_request`
returns the encoding of the reference definition amended to skip any
header value whose bytes are not a valid visible-ASCII string; on the
remaining values the scan is exactly the claim's: first value containing
`"gzip"` wins, else `"deflate"`, else continue, defaulting to
Uncompressed. -/
theorem claim1_amended {α : Type} (req : Req α) :
    Encoding.from_request req =
      specNegotiateValid (getAll req.headers ACCEPT_ENCODING) :=
  negotiate_eq_specValid _

/-- Claim C4: when the wrapped service's pending computation fails with
`e`, the poll resolves to `Error::Inner e` carrying exactly `e` — for
every codec environment, so no encoder call is consulted — and the
action trace is empty: no header mutation, no write, no finish. -/
theorem claim4 {ε : Type} (env : CodecEnv) (fut : CompressFuture ε) (e : ε)
    (h : fut.innerPoll = .error e) :
    CompressFuture.poll env fut = .error (.inner e) ∧
    (CompressFuture.pollEvents env fut).1 = [] := by
  constructor
  · unfold CompressFuture.poll
    rw [h]
  · unfold CompressFuture.pollEvents
    rw [h]

/-- Witness for C4 at a concrete failed future. -/
theorem claim4_witness :
    CompressFuture.poll envFailW futE = .error (.inner 42) ∧
    (CompressFuture.pollEvents envFailW futE).1 = [] :=
  claim4 envFailW futE 42 rfl

/-- Claim C7: `Compress::call` is a total function (it cannot fail or
block in this embedding); the returned future carries the encoding
negotiated from the request's headers by `Encoding::from_request`, the
wrapped service's pending computation for the unmodified request, and a
copy of the middleware's options.  The encoding field depends only on the
request, fixed before the wrapped service runs. -/
theorem claim7 {α ε : Type} (svc : Compress α ε) (req : Req α) :
    (Compress.call svc req).encoding = Encoding.from_request req ∧
    (Compress.call svc req).innerPoll = svc.inner req ∧
    (Compress.call svc req).options = svc.options :=
  ⟨rfl, rfl, rfl⟩

/-- Claim C9: with encoding Uncompressed, a successful poll yields the
wrapped response unchanged: same status, exactly the same headers (in
particular no `Content-Encoding` header is added), and a body whose bytes
are identical to the wrapped body (in a buffer of capacity equal to the
body length). -/
theorem claim9 {ε : Type} (env : CodecEnv) (fut : CompressFuture ε)
    (resp : Resp (List Nat))
    (h1 : fut.innerPoll = .ok (.ready resp))
    (h2 : fut.encoding = .uncompressed) :
    CompressFuture.poll env fut =
      .ok (.ready { status := resp.status, headers := resp.headers,
                    body := { cap := resp.body.length, data := resp.body } }) := by
  unfold CompressFuture.poll
  rw [h1]
  simp [h2, Encoding.is_compressed, CompressFuture.make_encoder,
    Encoder.write, Encoder.finish]

/-- Witness for C9 at a concrete uncompressed future (under an
environment whose external codecs always fail, showing they are not
consulted). -/
theorem claim9_witness :
    CompressFuture.poll envFailW futU =
      .ok (.ready { status := 200, headers := [("x-a", "b")],
                    body := { cap := 3, data := [9, 8, 7] } }) :=
  claim9 envFailW futU
    { status := 200, headers := [("x-a", "b")], body := [9, 8, 7] } rfl rfl

/-- The result component of the instrumented poll agrees with
`CompressFuture::poll`. -/
theorem pollEvents_result {ε : Type} (env : CodecEnv)
    (fut : CompressFuture ε) :
    (CompressFuture.pollEvents env fut).2 = CompressFuture.poll env fut := by
  cases hi : fut.innerPoll with
  | error e => simp [CompressFuture.pollEvents, CompressFuture.poll, hi]
  | ok a =>
    cases a with
    | notReady => simp [CompressFuture.pollEvents, CompressFuture.poll, hi]
    | ready resp =>
      simp only [CompressFuture.pollEvents, CompressFuture.poll, hi]
      cases hw : Encoder.write env
          (fut.make_encoder
            (if fut.encoding.is_compressed then resp.body.length / 3
             else resp.body.length)) resp.body with
      | error e => simp [hw]
      | ok enc1 =>
        cases hf : Encoder.finish env enc1 <;> simp [hw, hf]

/-- A successful encoder write leaves the capacity of the output buffer
unchanged. -/
theorem write_bufCap {env : CodecEnv} {enc enc1 : Encoder} {buf : List Nat}
    (hw : Encoder.write env enc buf = .ok enc1) :
    Encoder.bufCap enc1 = Encoder.bufCap enc := by
  cases enc with
  | deflate o w written =>
    cases hg : env.deflateWrite o buf with
    | error e => simp [Encoder.write, hg] at hw
    | ok n =>
      simp only [Encoder.write, hg, Except.ok.injEq] at hw
      subst hw
      rfl
  | gzip o w written =>
    cases hg : env.gzipWrite o buf with
    | error e => simp [Encoder.write, hg] at hw
    | ok n =>
      simp only [Encoder.write, hg, Except.ok.injEq] at hw
      subst hw
      rfl
  | uncompressed w =>
    simp only [Encoder.write, Except.ok.injEq] at hw
    subst hw
    rfl

/-- A successful finish yields a buffer whose capacity is the encoder's
output-buffer capacity. -/
theorem finish_bufCap {env : CodecEnv} {enc : Encoder} {b : Buf}
    (hf : Encoder.finish env enc = .ok b) : b.cap = Encoder.bufCap enc := by
  cases enc with
  | deflate o w written =>
    cases hg : env.deflateFinish o written with
    | error e => simp [Encoder.finish, hg] at hf
    | ok out =>
      simp only [Encoder.finish, hg, Except.ok.injEq] at hf
      subst hf
      rfl
  | gzip o w written =>
    cases hg : env.gzipFinish o written with
    | error e => simp [Encoder.finish, hg] at hf
    | ok out =>
      simp only [Encoder.finish, hg, Except.ok.injEq] at hf
      subst hf
      rfl
  | uncompressed w =>
    simp only [Encoder.finish, Except.ok.injEq] at hf
    subst hf
    rfl

/-- `make_encoder` requests exactly the given capacity. -/
theorem make_encoder_bufCap {ε : Type} (fut : CompressFuture ε) (c : Nat) :
    Encoder.bufCap (fut.make_encoder c) = c := by
  cases he : fut.encoding <;>
    simp [CompressFuture.make_encoder, he, Encoder.bufCap]

/-- Shape of a poll once the wrapped response is available: either an
error, or the whole body was written, the encoder finished, and the
response is rebuilt from the finished buffer. -/
theorem poll_shape {ε : Type} (env : CodecEnv) (fut : CompressFuture ε)
    (resp : Resp (List Nat))
    (h : fut.innerPoll = .ok (.ready resp)) :
    (∃ err, CompressFuture.poll env fut = .error err) ∨
    (∃ enc1 outBuf,
      Encoder.write env
        (fut.make_encoder
          (if fut.encoding.is_compressed then resp.body.length / 3
           else resp.body.length)) resp.body = .ok enc1 ∧
      Encoder.finish env enc1 = .ok outBuf ∧
      CompressFuture.poll env fut =
        .ok (.ready (Resp.mk resp.status
          (if fut.encoding.is_compressed then
            insertHeader resp.headers CONTENT_ENCODING
              fut.encoding.header_value
           else resp.headers)
          outBuf))) := by
  cases hw : Encoder.write env
      (fut.make_encoder
        (if fut.encoding.is_compressed then resp.body.length / 3
         else resp.body.length)) resp.body with
  | error e =>
    exact Or.inl ⟨Error.write e, by simp [CompressFuture.poll, h, hw]⟩
  | ok enc1 =>
    cases hf : Encoder.finish env enc1 with
    | error e =>
      exact Or.inl ⟨Error.finish e, by simp [CompressFuture.poll, h, hw, hf]⟩
    | ok outBuf =>
      exact Or.inr ⟨enc1, outBuf, rfl, hf,
        by simp [CompressFuture.poll, h, hw, hf]⟩

/-- Claim C2: under honest external codecs (`pureEnv cg cd`, with
decompression functions `dg`, `dd` inverting them), for a compressed
negotiated encoding the poll succeeds and the yielded response's body
decompresses with the matching algorithm to exactly the wrapped body, and
its `Content-Encoding` header is exactly `"gzip"` resp. `"deflate"`. -/
theorem claim2 {ε : Type}
    (cg cd dg dd : CompressionOptions → List Nat → List Nat)
    (hg : ∀ o b, dg o (cg o b) = b) (hd : ∀ o b, dd o (cd o b) = b)
    (fut : CompressFuture ε) (resp : Resp (List Nat))
    (h : fut.innerPoll = .ok (.ready resp)) :
    (fut.encoding = .gzip →
      ∃ r, CompressFuture.poll (pureEnv cg cd) fut = .ok (.ready r) ∧
        dg fut.options r.body.data = resp.body ∧
        getHeader r.headers CONTENT_ENCODING = some "gzip") ∧
    (fut.encoding = .deflate →
      ∃ r, CompressFuture.poll (pureEnv cg cd) fut = .ok (.ready r) ∧
        dd fut.options r.body.data = resp.body ∧
        getHeader r.headers CONTENT_ENCODING = some "deflate") := by
  constructor
  · intro he
    refine ⟨{ status := resp.status,
              headers := insertHeader resp.headers CONTENT_ENCODING "gzip",
              body := ⟨resp.body.length / 3, cg fut.options resp.body⟩ },
            ?_, ?_, ?_⟩
    · simp [CompressFuture.poll, h, he, Encoding.is_compressed,
        Encoding.header_value, CompressFuture.make_encoder, Encoder.write,
        Encoder.finish, pureEnv]
    · exact hg fut.options resp.body
    · exact getHeader_insertHeader _ _ _
  · intro he
    refine ⟨{ status := resp.status,
              headers := insertHeader resp.headers CONTENT_ENCODING "deflate",
              body := ⟨resp.body.length / 3, cd fut.options resp.body⟩ },
            ?_, ?_, ?_⟩
    · simp [CompressFuture.poll, h, he, Encoding.is_compressed,
        Encoding.header_value, CompressFuture.make_encoder, Encoder.write,
        Encoder.finish, pureEnv]
    · exact hd fut.options resp.body
    · exact getHeader_insertHeader _ _ _

/-- Witness for C2: identity codecs, a ready gzip future with body
`[1, 2, 3, 4, 5]`. -/
theorem claim2_witness :
    ∃ r, CompressFuture.poll (pureEnv idCodec idCodec) futG =
        .ok (.ready r) ∧
      idCodec futG.options r.body.data = [1, 2, 3, 4, 5] ∧
      getHeader r.headers CONTENT_ENCODING = some "gzip" :=
  (claim2 idCodec idCodec idCodec idCodec (fun _ _ => rfl) (fun _ _ => rfl)
    futG { status := 200, headers := [], body := [1, 2, 3, 4, 5] } rfl).1 rfl

/-- Claim C3: once the wrapped response is available, a poll is
all-or-nothing — either it resolves to an error, or the whole original
body was written through the encoder, the encoder finished, and the
yielded response carries exactly that finished buffer as its body. -/
theorem claim3 {ε : Type} (env : CodecEnv) (fut : CompressFuture ε)
    (resp : Resp (List Nat))
    (h : fut.innerPoll = .ok (.ready resp)) :
    (∃ err, CompressFuture.poll env fut = .error err) ∨
    (∃ enc1 outBuf,
      Encoder.write env
        (fut.make_encoder
          (if fut.encoding.is_compressed then resp.body.length / 3
           else resp.body.length)) resp.body = .ok enc1 ∧
      Encoder.finish env enc1 = .ok outBuf ∧
      CompressFuture.poll env fut =
        .ok (.ready (Resp.mk resp.status
          (if fut.encoding.is_compressed then
            insertHeader resp.headers CONTENT_ENCODING
              fut.encoding.header_value
           else resp.headers)
          outBuf))) :=
  poll_shape env fut resp h

/-- Witness for C3 at a concrete ready gzip future under honest codecs:
the success branch of the dichotomy. -/
theorem claim3_witness :
    (∃ err, CompressFuture.poll (pureEnv idCodec idCodec) futG =
        .error err) ∨
    (∃ enc1 outBuf,
      Encoder.write (pureEnv idCodec idCodec)
        (futG.make_encoder
          (if futG.encoding.is_compressed then
            [1, 2, 3, 4, 5].length / 3
           else [1, 2, 3, 4, 5].length)) [1, 2, 3, 4, 5] = .ok enc1 ∧
      Encoder.finish (pureEnv idCodec idCodec) enc1 = .ok outBuf ∧
      CompressFuture.poll (pureEnv idCodec idCodec) futG =
        .ok (.ready (Resp.mk 200
          (if futG.encoding.is_compressed then
            insertHeader [] CONTENT_ENCODING futG.encoding.header_value
           else [])
          outBuf))) :=
  claim3 (pureEnv idCodec idCodec) futG
    { status := 200, headers := [], body := [1, 2, 3, 4, 5] } rfl

/-- Claim C6: once the wrapped response is available, a failing encoder
write resolves the poll to `Error::Write` carrying exactly the I/O error,
and a failing finish (after a successful write) resolves it to
`Error::Finish` carrying exactly the I/O error; neither is coerced into
another variant and the payload is preserved. -/
theorem claim6 {ε : Type} (env : CodecEnv) (fut : CompressFuture ε)
    (resp : Resp (List Nat))
    (h : fut.innerPoll = .ok (.ready resp)) :
    (∀ e, Encoder.write env
        (fut.make_encoder
          (if fut.encoding.is_compressed then resp.body.length / 3
           else resp.body.length)) resp.body = .error e →
      CompressFuture.poll env fut = .error (.write e)) ∧
    (∀ enc1 e, Encoder.write env
        (fut.make_encoder
          (if fut.encoding.is_compressed then resp.body.length / 3
           else resp.body.length)) resp.body = .ok enc1 →
      Encoder.finish env enc1 = .error e →
      CompressFuture.poll env fut = .error (.finish e)) := by
  constructor
  · intro e hw
    simp [CompressFuture.poll, h, hw]
  · intro enc1 e hw hf
    simp [CompressFuture.poll, h, hw, hf]

/-- Witness for C6: a write-failing environment yields `Error::Write`
with its exact payload, a finish-failing environment yields
`Error::Finish` with its exact payload. -/
theorem claim6_witness :
    CompressFuture.poll envFailW futG = .error (.write ⟨7⟩) ∧
    CompressFuture.poll envFailF futG = .error (.finish ⟨9⟩) :=
  ⟨(claim6 envFailW futG
      { status := 200, headers := [], body := [1, 2, 3, 4, 5] } rfl).1
      ⟨7⟩ rfl,
   (claim6 envFailF futG
      { status := 200, headers := [], body := [1, 2, 3, 4, 5] } rfl).2
      (Encoder.gzip ⟨0⟩ ⟨1, []⟩ [1, 2, 3, 4, 5]) ⟨9⟩ rfl rfl⟩

/-- Claim C5: once the wrapped response is available, with a compressed
encoding the action trace starts with the header mutation (to the
canonical value) followed by the write attempt — so the header is set
strictly before write/finish, for every codec environment, including ones
where write or finish fails; with encoding Uncompressed no header
mutation ever appears in the trace. -/
theorem claim5 {ε : Type} (env : CodecEnv) (fut : CompressFuture ε)
    (resp : Resp (List Nat))
    (h : fut.innerPoll = .ok (.ready resp)) :
    (fut.encoding.is_compressed = true →
      ∃ rest, (CompressFuture.pollEvents env fut).1 =
        Ev.setHeader fut.encoding.header_value :: Ev.writeEv :: rest) ∧
    (fut.encoding.is_compressed = false →
      ∀ ev ∈ (CompressFuture.pollEvents env fut).1, ∀ v,
        ev ≠ Ev.setHeader v) := by
  constructor
  · intro hc
    cases he : fut.encoding with
    | uncompressed => rw [he] at hc; simp [Encoding.is_compressed] at hc
    | gzip =>
      cases hgw : env.gzipWrite fut.options resp.body with
      | error e =>
        exact ⟨[], by simp [CompressFuture.pollEvents, h, he,
          Encoding.is_compressed, Encoding.header_value,
          CompressFuture.make_encoder, Encoder.write, hgw]⟩
      | ok n =>
        cases hgf : env.gzipFinish fut.options resp.body with
        | error e =>
          exact ⟨[Ev.finishEv], by simp [CompressFuture.pollEvents, h, he,
            Encoding.is_compressed, Encoding.header_value,
            CompressFuture.make_encoder, Encoder.write, Encoder.finish,
            hgw, hgf]⟩
        | ok out =>
          exact ⟨[Ev.finishEv], by simp [CompressFuture.pollEvents, h, he,
            Encoding.is_compressed, Encoding.header_value,
            CompressFuture.make_encoder, Encoder.write, Encoder.finish,
            hgw, hgf]⟩
    | deflate =>
      cases hgw : env.deflateWrite fut.options resp.body with
      | error e =>
        exact ⟨[], by simp [CompressFuture.pollEvents, h, he,
          Encoding.is_compressed, Encoding.header_value,
          CompressFuture.make_encoder, Encoder.write, hgw]⟩
      | ok n =>
        cases hgf : env.deflateFinish fut.options resp.body with
        | error e =>
          exact ⟨[Ev.finishEv], by simp [CompressFuture.pollEvents, h, he,
            Encoding.is_compressed, Encoding.header_value,
            CompressFuture.make_encoder, Encoder.write, Encoder.finish,
            hgw, hgf]⟩
        | ok out =>
          exact ⟨[Ev.finishEv], by simp [CompressFuture.pollEvents, h, he,
            Encoding.is_compressed, Encoding.header_value,
            CompressFuture.make_encoder, Encoder.write, Encoder.finish,
            hgw, hgf]⟩
  · intro hc ev hev v
    cases he : fut.encoding with
    | gzip => rw [he] at hc; simp [Encoding.is_compressed] at hc
    | deflate => rw [he] at hc; simp [Encoding.is_compressed] at hc
    | uncompressed =>
      simp [CompressFuture.pollEvents, h, he, Encoding.is_compressed,
        CompressFuture.make_encoder, Encoder.write, Encoder.finish] at hev
      rcases hev with rfl | rfl <;> simp

/-- Witness for C5: under a write-failing environment, the gzip future's
trace still starts with the header mutation, before the failed write. -/
theorem claim5_witness :
    ∃ rest, (CompressFuture.pollEvents envFailW futG).1 =
      Ev.setHeader (Encoding.header_value futG.encoding) :: Ev.writeEv ::
        rest :=
  (claim5 envFailW futG
    { status := 200, headers := [], body := [1, 2, 3, 4, 5] } rfl).1 rfl

/-- Claim C8: a successful poll yields a body buffer whose requested
capacity is the original body length divided by three (rounding down)
for a compressed encoding, and exactly the body length for
Uncompressed. -/
theorem claim8 {ε : Type} (env : CodecEnv) (fut : CompressFuture ε)
    (resp : Resp (List Nat)) (r : Resp Buf)
    (h : fut.innerPoll = .ok (.ready resp))
    (hp : CompressFuture.poll env fut = .ok (.ready r)) :
    r.body.cap =
      if fut.encoding.is_compressed then resp.body.length / 3
      else resp.body.length := by
  rcases poll_shape env fut resp h with ⟨err, he⟩ |
    ⟨enc1, outBuf, hw, hf, hok⟩
  · rw [he] at hp
    exact absurd hp (by simp)
  · rw [hok] at hp
    simp only [Except.ok.injEq, Async.ready.injEq] at hp
    have hcap : outBuf.cap = Encoder.bufCap
        (fut.make_encoder
          (if fut.encoding.is_compressed then resp.body.length / 3
           else resp.body.length)) :=
      (finish_bufCap hf).trans (write_bufCap hw)
    rw [← hp]
    simpa [make_encoder_bufCap] using hcap

/-- Witness for C8 at a concrete gzip future with a five-byte body under
honest codecs: the yielded buffer's capacity is `5 / 3 = 1`. -/
theorem claim8_witness :
    (Resp.mk 200 [(CONTENT_ENCODING, "gzip")]
        (Buf.mk 1 [1, 2, 3, 4, 5]) : Resp Buf).body.cap =
      if futG.encoding.is_compressed then [1, 2, 3, 4, 5].length / 3
      else [1, 2, 3, 4, 5].length :=
  claim8 (pureEnv idCodec idCodec) futG
    { status := 200, headers := [], body := [1, 2, 3, 4, 5] }
    (Resp.mk 200 [(CONTENT_ENCODING, "gzip")] (Buf.mk 1 [1, 2, 3, 4, 5]))
    rfl rfl

/-- Values that are not valid visible-ASCII strings contribute nothing to
the negotiation scan. -/
theorem filterMap_classify_filter (vs : List (List Nat)) :
    (vs.filter (fun v => v.all isVisibleAscii)).filterMap classifyValue =
      vs.filterMap classifyValue := by
  induction vs with
  | nil => rfl
  | cons v rest ih =>
    by_cases hv : v.all isVisibleAscii = true
    · simp [List.filter_cons, hv, List.filterMap_cons, ih]
    · have hnone : classifyValue v = none := by
        simp [classifyValue, toStr, hv]
      simp [List.filter_cons, hv, List.filterMap_cons, hnone, ih]

/-- Claim C10: an `Accept-Encoding` value whose bytes are not a valid
visible-ASCII string can never select an encoding (it classifies to
nothing) and is silently skipped — negotiation equals the scan over only
the valid values — and negotiation never fails: if every
`Accept-Encoding` value is such a non-ASCII value, the negotiated
encoding is Uncompressed. -/
theorem claim10 {α : Type} (req : Req α) :
    (∀ v, v.all isVisibleAscii = false → classifyValue v = none) ∧
    Encoding.from_request req =
      (((((getAll req.headers ACCEPT_ENCODING).filter
            (fun v => v.all isVisibleAscii)).filterMap
          classifyValue).head?).getD Encoding.uncompressed) ∧
    ((getAll req.headers ACCEPT_ENCODING).all
        (fun v => !(v.all isVisibleAscii)) = true →
      Encoding.from_request req = Encoding.uncompressed) := by
  refine ⟨?_, ?_, ?_⟩
  · intro v hv
    simp [classifyValue, toStr, hv]
  · simp only [Encoding.from_request, filterMap_classify_filter]
  · intro hall
    unfold Encoding.from_request
    have hnil : (getAll req.headers ACCEPT_ENCODING).filterMap
        classifyValue = [] := by
      rw [List.filterMap_eq_nil_iff]
      intro v hv
      have hfalse := List.all_eq_true.mp hall v hv
      simp only [Bool.not_eq_true'] at hfalse
      simp [classifyValue, toStr, hfalse]
    rw [hnil]
    rfl

/-- Witness for C10: a request both of whose `Accept-Encoding` values
contain a non-visible-ASCII byte negotiates Uncompressed. -/
theorem claim10_witness :
    Encoding.from_request reqInvalidOnly = Encoding.uncompressed :=
  (claim10 reqInvalidOnly).2.2 (by decide)

end TowerCompress
